import Mathlib

/-!
Verification of the secure-memory buffer module (src/sodium/src/secbuf.rs).

The shallow embedding models the byte store as a list of naturals below 256,
panics as the `none` branch of `Option`, and the recoverable error results of
the decode pipeline as `Except SodiumError`.  The external collaborators
(the base64 text codec and the error-correction codec) are treated as the
spec treats them: base64 is implemented concretely (it is the standard
algorithm), while the error-correction codec is a parameter carrying the
interface contract the spec states for it.
-/

namespace Sodium

/-- The memory protection state of a SecBuf (enum ProtectState in the source). -/
inductive ProtectState where
  | NoAccess
  | ReadOnly
  | ReadWrite
deriving DecidableEq, Repr

/-- A SecBuf: a backing store (insecure Rust heap memory or secure sodium
memory, distinguished by the `secure` flag) together with a protection state.
The store content is a list of byte values. -/
structure SecBuf where
  secure : Bool
  b : List Nat
  p : ProtectState
deriving DecidableEq, Repr

/-- `RustBuf::new`: a zeroed insecure store of any requested size. -/
def RustBuf.new (s : Nat) : List Nat := List.replicate s 0

/-- `SodiumBuf::new`: a zeroed secure store; any size outside the set
8, 16, 32, 64 is a panic (`none`). -/
def SodiumBuf.new (s : Nat) : Option (List Nat) :=
  if s = 8 ∨ s = 16 ∨ s = 32 ∨ s = 64 then some (List.replicate s 0) else none

/-- `SecBuf::with_insecure`: insecure backing store, state NoAccess. -/
def with_insecure (s : Nat) : SecBuf :=
  { secure := false, b := RustBuf.new s, p := ProtectState.NoAccess }

/-- `SecBuf::with_secure`: secure backing store (size-checked), state NoAccess. -/
def with_secure (s : Nat) : Option SecBuf :=
  (SodiumBuf.new s).map (fun bytes => { secure := true, b := bytes, p := ProtectState.NoAccess })

/-- `SecBuf::protect_state`. -/
def protect_state (sb : SecBuf) : ProtectState := sb.p

/-- `SecBuf::len`. -/
def len (sb : SecBuf) : Nat := sb.b.length

/-- `SecBuf::readable`: NoAccess becomes ReadOnly; any other state is the
double-lock panic (`none`). -/
def readable (sb : SecBuf) : Option SecBuf :=
  if sb.p = ProtectState.NoAccess then some { sb with p := ProtectState.ReadOnly } else none

/-- `SecBuf::writable`: NoAccess becomes ReadWrite; any other state is the
double-lock panic (`none`). -/
def writable (sb : SecBuf) : Option SecBuf :=
  if sb.p = ProtectState.NoAccess then some { sb with p := ProtectState.ReadWrite } else none

/-- `SecBuf::noaccess`: unconditionally returns the buffer to NoAccess. -/
def noaccess (sb : SecBuf) : SecBuf := { sb with p := ProtectState.NoAccess }

/-- `impl Deref for SecBuf`: a byte read of the whole store; panics (`none`)
exactly when the state is NoAccess, otherwise yields the bytes unchanged. -/
def deref (sb : SecBuf) : Option (List Nat) :=
  if sb.p = ProtectState.NoAccess then none else some sb.b

/-- `impl DerefMut for SecBuf`: mutable access to the store; panics (`none`)
exactly when the state is not ReadWrite. -/
def derefMut (sb : SecBuf) : Option (List Nat) :=
  if sb.p = ProtectState.ReadWrite then some sb.b else none

/-- A single byte write `buf[i] = v` through DerefMut; slice indexing out of
bounds is also a panic. -/
def writeIdx (sb : SecBuf) (i v : Nat) : Option SecBuf :=
  match derefMut sb with
  | none => none
  | some bytes => if i < bytes.length then some { sb with b := bytes.set i v } else none

/-- `Locker::new`: drives the buffer into the requested mode (panicking on a
double lock).  The locker is the buffer itself, held in the locked state. -/
def Locker.new (sb : SecBuf) (w : Bool) : Option SecBuf :=
  if w then writable sb else readable sb

/-- `SecBuf::read_lock`. -/
def read_lock (sb : SecBuf) : Option SecBuf := Locker.new sb false

/-- `SecBuf::write_lock`. -/
def write_lock (sb : SecBuf) : Option SecBuf := Locker.new sb true

/-- `impl Drop for Locker`: releasing the locker calls `noaccess`. -/
def Locker.drop (sb : SecBuf) : SecBuf := noaccess sb

/-- The write loop of `convert_array_to_secbuf`: `buf[x] = data[x]` for
`x` in `0..data.len()`, starting at index `i`. -/
def writeAll (data : List Nat) (i : Nat) (sb : SecBuf) : Option SecBuf :=
  match data with
  | [] => some sb
  | v :: rest =>
    match writeIdx sb i v with
    | none => none
    | some sb2 => writeAll rest (i + 1) sb2

/-- `SecBuf::convert_array_to_secbuf`: write-lock the buffer, copy `data` in
byte by byte, and let the locker drop (returning the buffer to NoAccess). -/
def convert_array_to_secbuf (data : List Nat) (buf : SecBuf) : Option SecBuf :=
  match write_lock buf with
  | none => none
  | some locked =>
    match writeAll data 0 locked with
    | none => none
    | some written => some (Locker.drop written)

/-- `impl Debug for SecBuf`: formats `self.b.ref_()` directly, with no
protection-state check; it never panics on an insecure store. -/
def debugFmt (sb : SecBuf) : Option (List Nat) := some sb.b

/-! ## The base64 text codec (the `base64` crate, standard alphabet with padding) -/

/-- The 64 characters of the standard base64 alphabet, in value order. -/
def b64Alphabet : List Char :=
  "ABCDEFGHIJKLMNOPQRSTUVWXYZabcdefghijklmnopqrstuvwxyz0123456789+/".toList

/-- The character encoding the sextet value `n`. -/
def sextetChar (n : Nat) : Char := b64Alphabet.getD n 'A'

/-- The sextet value of a character, `none` when it is not in the alphabet. -/
def sextetOfChar (c : Char) : Option Nat :=
  let i := List.findIdx (fun x => x = c) b64Alphabet
  if i < 64 then some i else none

/-- Encode a final group of 1, 2 or 3 bytes as 4 base64 characters. -/
def b64EncodeChunk (xs : List Nat) : List Char :=
  match xs with
  | [a] => [sextetChar (a / 4), sextetChar (a % 4 * 16), '=', '=']
  | [a, b] => [sextetChar (a / 4), sextetChar (a % 4 * 16 + b / 16), sextetChar (b % 16 * 4), '=']
  | [a, b, c] =>
    [sextetChar (a / 4), sextetChar (a % 4 * 16 + b / 16),
     sextetChar (b % 16 * 4 + c / 64), sextetChar (c % 64)]
  | _ => []

/-- `base64::encode`: standard base64 with padding. -/
def b64Encode : List Nat → List Char
  | [] => []
  | [a] => b64EncodeChunk [a]
  | [a, b] => b64EncodeChunk [a, b]
  | a :: b :: c :: rest => b64EncodeChunk [a, b, c] ++ b64Encode rest

/-- Decode one 4-character group; `isLast` tells whether padding may appear.
Trailing sextet bits must be zero (the default strict configuration of the
`base64` crate). -/
def b64DecodeQuad (c0 c1 c2 c3 : Char) (isLast : Bool) : Option (List Nat) :=
  match sextetOfChar c0, sextetOfChar c1 with
  | some a, some b =>
    if c2 = '=' then
      if isLast ∧ c3 = '=' ∧ b % 16 = 0 then some [a * 4 + b / 16] else none
    else
      match sextetOfChar c2 with
      | some c =>
        if c3 = '=' then
          if isLast ∧ c % 4 = 0 then some [a * 4 + b / 16, b % 16 * 16 + c / 4] else none
        else
          match sextetOfChar c3 with
          | some d => some [a * 4 + b / 16, b % 16 * 16 + c / 4, c % 4 * 64 + d]
          | none => none
      | none => none
  | _, _ => none

/-- `base64::decode`: standard base64 with padding; `none` is the decode
error. -/
def b64Decode : List Char → Option (List Nat)
  | [] => some []
  | c0 :: c1 :: c2 :: c3 :: rest =>
    match b64DecodeQuad c0 c1 c2 c3 rest.isEmpty, b64Decode rest with
    | some bs, some more => some (bs ++ more)
    | _, _ => none
  | _ => none

/-! ## The error-correction collaborator and the error type -/

/-- Modelled from the spec: the error type of this module
(src/sodium/src/error.rs is not among the provided sources).  The spec
requires a typed failure result distinguishing a malformed encoding (base64
decode failure) from uncorrectable corruption (error-correction bound
exceeded). -/
inductive SodiumError where
  | DecodeError
  | CorrectionError
deriving DecidableEq, Repr

/-- The interface of the external error-correction codec (the `reed_solomon`
crate), as the spec presents it: `encode` appends `k` parity symbols computed
over the payload, and `correct` either repairs a word in place or reports
that the corruption exceeds the repair bound.  The contract fields are the
properties the spec assumes of the collaborator: parity symbols are bytes,
there are exactly `k` of them, and correcting an uncorrupted codeword
returns it unchanged. -/
structure RSCodec where
  parity : List Nat → Nat → List Nat
  correct : List Nat → Nat → Except Unit (List Nat)
  parity_length : ∀ p k, (parity p k).length = k
  parity_bytes : ∀ p k, ∀ x ∈ parity p k, x < 256
  correct_clean : ∀ p k, correct (p ++ parity p k) k = Except.ok (p ++ parity p k)

/-- `Encoder::encode`: the payload followed by its parity symbols. -/
def rsEncode (rs : RSCodec) (p : List Nat) (k : Nat) : List Nat := p ++ rs.parity p k

/-! ## The identity codec -/

/-- `SecBuf::PARITY_LEN`. -/
def PARITY_LEN : Nat := 5

/-- A character-by-character replacement, as `str::replace` acts on
single-character patterns. -/
def replaceChar (a b : Char) (s : List Char) : List Char :=
  s.map (fun c => if c = a then b else c)

/-- The URL-safe substitution done by `render`: `+` to `-`, then `/` to `_`. -/
def urlSafe (s : List Char) : List Char := replaceChar '/' '_' (replaceChar '+' '-' s)

/-- The normalization done by the corrected decoders: `-` to `+`, then `_`
to `/`. -/
def normalize (s : List Char) : List Char := replaceChar '_' '/' (replaceChar '-' '+' s)

/-- `SecBuf::render`: reed-solomon encode the buffer bytes (reading them
through Deref, which panics when the state is NoAccess), base64 encode, and
substitute the URL-unsafe characters. -/
def render (rs : RSCodec) (sb : SecBuf) : Option (List Char) :=
  match deref sb with
  | none => none
  | some bytes => some (urlSafe (b64Encode (rsEncode rs bytes PARITY_LEN)))

/-- `SecBuf::insecurely_corrected`: normalize, base64 decode (recoverable
DecodeError on failure), reed-solomon correct (recoverable CorrectionError
on failure), then copy all but the last 5 bytes into a fresh insecure
buffer.  The outer `Option` is panic; the length subtraction is the
truncated natural subtraction. -/
def insecurely_corrected (rs : RSCodec) (s : List Char) : Option (Except SodiumError SecBuf) :=
  match b64Decode (normalize s) with
  | none => some (Except.error SodiumError.DecodeError)
  | some base64 =>
    match rs.correct base64 PARITY_LEN with
    | Except.error _ => some (Except.error SodiumError.CorrectionError)
    | Except.ok dec =>
      match convert_array_to_secbuf (dec.take (dec.length - 5)) (with_insecure (dec.length - 5)) with
      | none => none
      | some b2 => some (Except.ok b2)

/-- `SecBuf::securely_corrected`: as `insecurely_corrected`, but the fresh
buffer is secure, so an allocation size outside the allowed set panics. -/
def securely_corrected (rs : RSCodec) (s : List Char) : Option (Except SodiumError SecBuf) :=
  match b64Decode (normalize s) with
  | none => some (Except.error SodiumError.DecodeError)
  | some base64 =>
    match rs.correct base64 PARITY_LEN with
    | Except.error _ => some (Except.error SodiumError.CorrectionError)
    | Except.ok dec =>
      match with_secure (dec.length - 5) with
      | none => none
      | some fresh =>
        match convert_array_to_secbuf (dec.take (dec.length - 5)) fresh with
        | none => none
        | some b2 => some (Except.ok b2)

/-! ## Helper constructions used by the testable properties -/

/-- A buffer of size `bb.length` filled with the bytes `bb` (insecure). -/
def with_insecure_filled (bb : List Nat) : Option SecBuf :=
  convert_array_to_secbuf bb (with_insecure bb.length)

/-- A buffer of size `bb.length` filled with the bytes `bb` (secure). -/
def with_secure_filled (bb : List Nat) : Option SecBuf :=
  (with_secure bb.length).bind (convert_array_to_secbuf bb)

/-- A concrete instance of the error-correction collaborator contract, used
to evaluate the theorems on concrete inputs: five zero parity symbols and a
correction step that accepts every word as already clean. -/
def rs0 : RSCodec where
  parity := fun _ k => List.replicate k 0
  correct := fun w _ => Except.ok w
  parity_length := by
    intro p k
    simp
  parity_bytes := by
    intro p k x hx
    simp only [List.mem_replicate] at hx
    omega
  correct_clean := by
    intro p k
    rfl

/-- A concrete collaborator instance whose correction step rejects words
shorter than the parity length, used to exercise the CorrectionError path. -/
def rs1 : RSCodec where
  parity := fun _ k => List.replicate k 0
  correct := fun w k => if w.length < k then Except.error () else Except.ok w
  parity_length := by
    intro p k
    simp
  parity_bytes := by
    intro p k x hx
    simp only [List.mem_replicate] at hx
    omega
  correct_clean := by
    intro p k
    simp

/-! ## Character-level facts about the base64 alphabet -/

theorem sextet_left_inv : ∀ n, n < 64 → sextetOfChar (sextetChar n) = some n := by decide

theorem sextetChar_ne_pad (n : Nat) : ¬ (sextetChar n = '=') := by
  by_cases h : n < 64
  · revert n h
    decide
  · unfold sextetChar
    rw [List.getD_eq_default]
    · decide
    · have : b64Alphabet.length = 64 := by decide
      omega

theorem sextetChar_safe (n : Nat) : sextetChar n ≠ '-' ∧ sextetChar n ≠ '_' := by
  by_cases h : n < 64
  · revert n h
    decide
  · unfold sextetChar
    rw [List.getD_eq_default]
    · decide
    · have : b64Alphabet.length = 64 := by decide
      omega

theorem b64EncodeChunk_safe (xs : List Nat) : ∀ c ∈ b64EncodeChunk xs, c ≠ '-' ∧ c ≠ '_' := by
  intro c hc
  match xs with
  | [] => simp [b64EncodeChunk] at hc
  | [a] =>
    simp only [b64EncodeChunk, List.mem_cons, List.not_mem_nil, or_false] at hc
    rcases hc with h | h | h | h <;> subst h <;>
      first
        | exact sextetChar_safe _
        | exact ⟨by decide, by decide⟩
  | [a, b] =>
    simp only [b64EncodeChunk, List.mem_cons, List.not_mem_nil, or_false] at hc
    rcases hc with h | h | h | h <;> subst h <;>
      first
        | exact sextetChar_safe _
        | exact ⟨by decide, by decide⟩
  | [a, b, d] =>
    simp only [b64EncodeChunk, List.mem_cons, List.not_mem_nil, or_false] at hc
    rcases hc with h | h | h | h <;> subst h <;> exact sextetChar_safe _
  | _ :: _ :: _ :: _ :: _ => simp [b64EncodeChunk] at hc

theorem b64Encode_safe : ∀ (bs : List Nat), ∀ c ∈ b64Encode bs, c ≠ '-' ∧ c ≠ '_'
  | [] => by simp [b64Encode]
  | [a] => by
    intro c hc
    exact b64EncodeChunk_safe [a] c hc
  | [a, b] => by
    intro c hc
    exact b64EncodeChunk_safe [a, b] c hc
  | a :: b :: d :: rest => by
    intro c hc
    rw [b64Encode] at hc
    rcases List.mem_append.mp hc with h | h
    · exact b64EncodeChunk_safe [a, b, d] c h
    · exact b64Encode_safe rest c h

theorem b64_roundtrip : ∀ (bs : List Nat), (∀ x ∈ bs, x < 256) →
    b64Decode (b64Encode bs) = some bs
  | [] => by
    intro _
    rfl
  | [a] => by
    intro h
    have ha : a < 256 := h a (by simp)
    have h1 : a / 4 < 64 := by omega
    have h2 : a % 4 * 16 < 64 := by omega
    have h3 : a % 4 * 16 % 16 = 0 := by omega
    simp only [b64Encode, b64EncodeChunk, b64Decode, List.isEmpty_nil, b64DecodeQuad,
      sextet_left_inv _ h1, sextet_left_inv _ h2, h3]
    simp
    omega
  | [a, b] => by
    intro h
    have ha : a < 256 := h a (by simp)
    have hb : b < 256 := h b (by simp)
    have h1 : a / 4 < 64 := by omega
    have h2 : a % 4 * 16 + b / 16 < 64 := by omega
    have h3 : b % 16 * 4 < 64 := by omega
    have h4 : b % 16 * 4 % 4 = 0 := by omega
    simp only [b64Encode, b64EncodeChunk, b64Decode, List.isEmpty_nil, b64DecodeQuad,
      sextet_left_inv _ h1, sextet_left_inv _ h2, sextet_left_inv _ h3, h4,
      sextetChar_ne_pad]
    simp [sextetChar_ne_pad]
    omega
  | a :: b :: d :: rest => by
    intro h
    have ha : a < 256 := h a (by simp)
    have hb : b < 256 := h b (by simp)
    have hd : d < 256 := h d (by simp)
    have ih := b64_roundtrip rest (fun x hx => h x (by simp [hx]))
    have h1 : a / 4 < 64 := by omega
    have h2 : a % 4 * 16 + b / 16 < 64 := by omega
    have h3 : b % 16 * 4 + d / 64 < 64 := by omega
    have h4 : d % 64 < 64 := by omega
    rw [b64Encode]
    simp only [b64EncodeChunk, List.cons_append, List.nil_append]
    rw [b64Decode]
    simp only [b64DecodeQuad, sextet_left_inv _ h1, sextet_left_inv _ h2,
      sextet_left_inv _ h3, sextet_left_inv _ h4, sextetChar_ne_pad, if_false, ih]
    simp [sextetChar_ne_pad]
    omega

/-! ## The URL-safe substitution and its normalization -/

theorem normalize_urlSafe (s : List Char) (h : ∀ c ∈ s, c ≠ '-' ∧ c ≠ '_') :
    normalize (urlSafe s) = s := by
  induction s with
  | nil => rfl
  | cons c t ih =>
    have hc := h c (by simp)
    have ht := ih (fun x hx => h x (by simp [hx]))
    simp only [normalize, urlSafe, replaceChar, List.map_cons] at ht ⊢
    rw [List.cons.injEq]
    refine ⟨?_, ht⟩
    by_cases h1 : c = '+'
    · simp [h1]
    · by_cases h2 : c = '/'
      · simp [h1, h2]
      · simp [h1, h2, hc.1, hc.2]

theorem normalize_idem (s : List Char) : normalize (normalize s) = normalize s := by
  induction s with
  | nil => rfl
  | cons c t ih =>
    simp only [normalize, replaceChar, List.map_cons] at ih ⊢
    rw [List.cons.injEq]
    refine ⟨?_, ih⟩
    by_cases h1 : c = '-'
    · simp [h1]
    · by_cases h2 : c = '_'
      · simp [h1, h2]
      · simp [h1, h2]

theorem urlSafe_no_unsafe (s : List Char) : ∀ c ∈ urlSafe s, c ≠ '+' ∧ c ≠ '/' := by
  intro c hc
  simp only [urlSafe, replaceChar, List.map_map, List.mem_map] at hc
  rcases hc with ⟨x, _, hx⟩
  subst hx
  simp only [Function.comp]
  by_cases h1 : x = '+'
  · simp [h1]
  · by_cases h2 : x = '/'
    · simp [h1, h2]
    · simp [h1, h2]

/-! ## Filling a buffer byte by byte -/

theorem take_succ_set (l : List Nat) (i v : Nat) (h : i < l.length) :
    (l.set i v).take (i + 1) = l.take i ++ [v] := by
  induction l generalizing i with
  | nil => simp at h
  | cons a t ih =>
    cases i with
    | zero => simp
    | succ j =>
      simp only [List.set, List.take, List.cons_append, List.cons.injEq, true_and]
      exact ih j (by simpa using h)

theorem writeAll_full : ∀ (data : List Nat) (sb : SecBuf) (i : Nat),
    sb.p = ProtectState.ReadWrite → sb.b.length = i + data.length →
    writeAll data i sb = some { sb with b := sb.b.take i ++ data }
  | [], sb, i => by
    intro _ hl
    simp only [List.length_nil] at hl
    simp only [writeAll, List.append_nil]
    rw [List.take_of_length_le (by omega)]
  | v :: rest, sb, i => by
    intro hp hl
    have hi : i < sb.b.length := by
      simp only [List.length_cons] at hl
      omega
    have step : writeIdx sb i v = some { sb with b := sb.b.set i v } := by
      simp [writeIdx, derefMut, hp, hi]
    have ih := writeAll_full rest { sb with b := sb.b.set i v } (i + 1)
      (by simpa using hp)
      (by simp only [List.length_set]; simp only [List.length_cons] at hl; omega)
    simp only [writeAll, step, ih]
    rw [take_succ_set _ _ _ hi]
    simp

theorem convert_full (data : List Nat) (sb : SecBuf)
    (hp : sb.p = ProtectState.NoAccess) (hl : sb.b.length = data.length) :
    convert_array_to_secbuf data sb =
      some { secure := sb.secure, b := data, p := ProtectState.NoAccess } := by
  have hlock : write_lock sb = some { sb with p := ProtectState.ReadWrite } := by
    simp [write_lock, Locker.new, writable, hp]
  have hw := writeAll_full data { sb with p := ProtectState.ReadWrite } 0
    rfl (by simpa using hl)
  simp [convert_array_to_secbuf, hlock, hw, Locker.drop, noaccess]

/-! ## The corrected decoders on a rendered string -/

theorem rsEncode_bytes (rs : RSCodec) (bb : List Nat) (hb : ∀ x ∈ bb, x < 256) :
    ∀ x ∈ rsEncode rs bb PARITY_LEN, x < 256 := by
  intro x hx
  rcases List.mem_append.mp hx with h | h
  · exact hb x h
  · exact rs.parity_bytes bb PARITY_LEN x h

theorem rsEncode_length (rs : RSCodec) (bb : List Nat) :
    (rsEncode rs bb PARITY_LEN).length = bb.length + 5 := by
  simp [rsEncode, rs.parity_length, PARITY_LEN]

theorem rsEncode_take (rs : RSCodec) (bb : List Nat) :
    (rsEncode rs bb PARITY_LEN).take ((rsEncode rs bb PARITY_LEN).length - 5) = bb := by
  rw [rsEncode_length]
  simp only [Nat.add_sub_cancel]
  exact List.take_left bb _

theorem corrected_render_insecure (rs : RSCodec) (bb : List Nat)
    (hb : ∀ x ∈ bb, x < 256) :
    insecurely_corrected rs (urlSafe (b64Encode (rsEncode rs bb PARITY_LEN))) =
      some (Except.ok { secure := false, b := bb, p := ProtectState.NoAccess }) := by
  have hnorm : normalize (urlSafe (b64Encode (rsEncode rs bb PARITY_LEN))) =
      b64Encode (rsEncode rs bb PARITY_LEN) :=
    normalize_urlSafe _ (b64Encode_safe _)
  have hdec : b64Decode (b64Encode (rsEncode rs bb PARITY_LEN)) =
      some (rsEncode rs bb PARITY_LEN) :=
    b64_roundtrip _ (rsEncode_bytes rs bb hb)
  have hcor : rs.correct (rsEncode rs bb PARITY_LEN) PARITY_LEN =
      Except.ok (rsEncode rs bb PARITY_LEN) :=
    rs.correct_clean bb PARITY_LEN
  have hfull := convert_full
    ((rsEncode rs bb PARITY_LEN).take ((rsEncode rs bb PARITY_LEN).length - 5))
    (with_insecure ((rsEncode rs bb PARITY_LEN).length - 5)) rfl
    (by
      simp only [with_insecure, RustBuf.new, List.length_replicate, List.length_take]
      omega)
  rw [rsEncode_take] at hfull
  simp only [with_insecure, RustBuf.new] at hfull
  simp only [insecurely_corrected, hnorm, hdec, hcor, rsEncode_take, with_insecure,
    RustBuf.new, hfull]

theorem corrected_render_secure (rs : RSCodec) (bb : List Nat)
    (hb : ∀ x ∈ bb, x < 256)
    (hs : bb.length = 8 ∨ bb.length = 16 ∨ bb.length = 32 ∨ bb.length = 64) :
    securely_corrected rs (urlSafe (b64Encode (rsEncode rs bb PARITY_LEN))) =
      some (Except.ok { secure := true, b := bb, p := ProtectState.NoAccess }) := by
  have hnorm : normalize (urlSafe (b64Encode (rsEncode rs bb PARITY_LEN))) =
      b64Encode (rsEncode rs bb PARITY_LEN) :=
    normalize_urlSafe _ (b64Encode_safe _)
  have hdec : b64Decode (b64Encode (rsEncode rs bb PARITY_LEN)) =
      some (rsEncode rs bb PARITY_LEN) :=
    b64_roundtrip _ (rsEncode_bytes rs bb hb)
  have hcor : rs.correct (rsEncode rs bb PARITY_LEN) PARITY_LEN =
      Except.ok (rsEncode rs bb PARITY_LEN) :=
    rs.correct_clean bb PARITY_LEN
  have hlen : (rsEncode rs bb PARITY_LEN).length - 5 = bb.length := by
    rw [rsEncode_length]
    omega
  have halloc : with_secure ((rsEncode rs bb PARITY_LEN).length - 5) =
      some { secure := true, b := List.replicate bb.length 0, p := ProtectState.NoAccess } := by
    rw [hlen]
    simp [with_secure, SodiumBuf.new, hs]
  have hfull := convert_full
    ((rsEncode rs bb PARITY_LEN).take ((rsEncode rs bb PARITY_LEN).length - 5))
    { secure := true, b := List.replicate bb.length 0, p := ProtectState.NoAccess } rfl
    (by
      simp only [List.length_replicate, List.length_take]
      rw [rsEncode_length]
      omega)
  rw [rsEncode_take] at hfull
  simp only [securely_corrected, hnorm, hdec, hcor, halloc, rsEncode_take, hfull]

/-! ## The claims -/

/-- Claim C2: readable() on a NoAccess buffer moves it to ReadOnly and
writable() moves it to ReadWrite; on a buffer in any other state both are
the double-lock panic, and the panic occurs in no other case. -/
theorem claim_c2_lock_transitions (sb : SecBuf) :
    (sb.p = ProtectState.NoAccess →
      readable sb = some { sb with p := ProtectState.ReadOnly } ∧
      writable sb = some { sb with p := ProtectState.ReadWrite }) ∧
    (sb.p ≠ ProtectState.NoAccess → readable sb = none ∧ writable sb = none) := by
  constructor
  · intro h
    constructor <;> simp [readable, writable, h]
  · intro h
    constructor <;> simp [readable, writable, h]

/-- Witness for C2 at concrete buffers in the NoAccess and ReadOnly states. -/
theorem claim_c2_lock_transitions_witness :
    (readable { secure := false, b := [0], p := ProtectState.NoAccess } =
       some { secure := false, b := [0], p := ProtectState.ReadOnly } ∧
     writable { secure := false, b := [0], p := ProtectState.NoAccess } =
       some { secure := false, b := [0], p := ProtectState.ReadWrite }) ∧
    (readable { secure := false, b := [0], p := ProtectState.ReadOnly } = none ∧
     writable { secure := false, b := [0], p := ProtectState.ReadOnly } = none) :=
  ⟨(claim_c2_lock_transitions _).1 rfl, (claim_c2_lock_transitions _).2 (by decide)⟩

/-- Claim C3: a byte read through Deref succeeds, yielding the bytes with
the state untouched, exactly when the state is not NoAccess, and panics when
it is; a byte write through DerefMut succeeds, leaving the state unchanged,
exactly when the state is ReadWrite, and panics otherwise. -/
theorem claim_c3_byte_access (sb : SecBuf) (i v : Nat) :
    (sb.p ≠ ProtectState.NoAccess → deref sb = some sb.b) ∧
    (sb.p = ProtectState.NoAccess → deref sb = none) ∧
    (sb.p = ProtectState.ReadWrite → derefMut sb = some sb.b) ∧
    (sb.p ≠ ProtectState.ReadWrite → derefMut sb = none) ∧
    (sb.p = ProtectState.ReadWrite → i < sb.b.length →
      writeIdx sb i v = some { sb with b := sb.b.set i v }) := by
  refine ⟨?_, ?_, ?_, ?_, ?_⟩
  · intro h
    simp [deref, h]
  · intro h
    simp [deref, h]
  · intro h
    simp [derefMut, h]
  · intro h
    simp [derefMut, h]
  · intro h hi
    simp [writeIdx, derefMut, h, hi]

/-- Witness for C3 at concrete buffers in each protection state. -/
theorem claim_c3_byte_access_witness :
    deref { secure := false, b := [7], p := ProtectState.ReadOnly } = some [7] ∧
    deref { secure := false, b := [7], p := ProtectState.NoAccess } = none ∧
    derefMut { secure := false, b := [7], p := ProtectState.ReadWrite } = some [7] ∧
    derefMut { secure := false, b := [7], p := ProtectState.ReadOnly } = none ∧
    writeIdx { secure := false, b := [7], p := ProtectState.ReadWrite } 0 5 =
      some { secure := false, b := [5], p := ProtectState.ReadWrite } :=
  ⟨(claim_c3_byte_access { secure := false, b := [7], p := ProtectState.ReadOnly } 0 5).1
      (by decide),
   (claim_c3_byte_access { secure := false, b := [7], p := ProtectState.NoAccess } 0 5).2.1 rfl,
   (claim_c3_byte_access { secure := false, b := [7], p := ProtectState.ReadWrite } 0 5).2.2.1
      rfl,
   (claim_c3_byte_access { secure := false, b := [7], p := ProtectState.ReadOnly } 0 5).2.2.2.1
      (by decide),
   (claim_c3_byte_access { secure := false, b := [7], p := ProtectState.ReadWrite } 0 5).2.2.2.2
      rfl (by decide)⟩

/-- Claim C4: from NoAccess, a read lock yields a live guard in ReadOnly and
a write lock a live guard in ReadWrite; releasing the guard (the Drop
implementation) reports NoAccess, and the release is unconditional: it
returns any buffer to NoAccess. -/
theorem claim_c4_guard_cleanup (sb : SecBuf) (h : sb.p = ProtectState.NoAccess) :
    (∃ l, read_lock sb = some l ∧ protect_state l = ProtectState.ReadOnly ∧
      protect_state (Locker.drop l) = ProtectState.NoAccess) ∧
    (∃ l, write_lock sb = some l ∧ protect_state l = ProtectState.ReadWrite ∧
      protect_state (Locker.drop l) = ProtectState.NoAccess) ∧
    (∀ t : SecBuf, protect_state (Locker.drop t) = ProtectState.NoAccess) := by
  refine ⟨⟨{ sb with p := ProtectState.ReadOnly }, ?_, rfl, rfl⟩,
          ⟨{ sb with p := ProtectState.ReadWrite }, ?_, rfl, rfl⟩,
          fun t => rfl⟩
  · simp [read_lock, Locker.new, readable, h]
  · simp [write_lock, Locker.new, writable, h]

/-- Witness for C4 at a concrete NoAccess buffer. -/
theorem claim_c4_guard_cleanup_witness :
    (∃ l, read_lock { secure := false, b := [0], p := ProtectState.NoAccess } = some l ∧
      protect_state l = ProtectState.ReadOnly ∧
      protect_state (Locker.drop l) = ProtectState.NoAccess) ∧
    (∃ l, write_lock { secure := false, b := [0], p := ProtectState.NoAccess } = some l ∧
      protect_state l = ProtectState.ReadWrite ∧
      protect_state (Locker.drop l) = ProtectState.NoAccess) ∧
    (∀ t : SecBuf, protect_state (Locker.drop t) = ProtectState.NoAccess) :=
  claim_c4_guard_cleanup { secure := false, b := [0], p := ProtectState.NoAccess } rfl

/-- Claim C6: the secure constructor succeeds for exactly the sizes 8, 16,
32 and 64 (yielding a zeroed NoAccess buffer) and panics for every other
size, while the insecure constructor accepts any size. -/
theorem claim_c6_secure_sizes (s : Nat) :
    ((s = 8 ∨ s = 16 ∨ s = 32 ∨ s = 64) →
      with_secure s =
        some { secure := true, b := List.replicate s 0, p := ProtectState.NoAccess }) ∧
    (¬(s = 8 ∨ s = 16 ∨ s = 32 ∨ s = 64) → with_secure s = none) ∧
    with_insecure s = { secure := false, b := List.replicate s 0, p := ProtectState.NoAccess } := by
  refine ⟨?_, ?_, rfl⟩ <;> intro h <;> simp [with_secure, SodiumBuf.new, h]

/-- Witness for C6: with_secure 8, 16, 32, 64 succeed, with_secure 1 panics,
with_insecure 1 succeeds. -/
theorem claim_c6_secure_sizes_witness :
    with_secure 8 = some { secure := true, b := List.replicate 8 0, p := ProtectState.NoAccess } ∧
    with_secure 16 =
      some { secure := true, b := List.replicate 16 0, p := ProtectState.NoAccess } ∧
    with_secure 32 =
      some { secure := true, b := List.replicate 32 0, p := ProtectState.NoAccess } ∧
    with_secure 64 =
      some { secure := true, b := List.replicate 64 0, p := ProtectState.NoAccess } ∧
    with_secure 1 = none ∧
    with_insecure 1 = { secure := false, b := List.replicate 1 0, p := ProtectState.NoAccess } :=
  ⟨(claim_c6_secure_sizes 8).1 (by decide), (claim_c6_secure_sizes 16).1 (by decide),
   (claim_c6_secure_sizes 32).1 (by decide), (claim_c6_secure_sizes 64).1 (by decide),
   (claim_c6_secure_sizes 1).2.1 (by decide), (claim_c6_secure_sizes 1).2.2⟩

/-- Claim C10: Debug formatting of an insecure-backed buffer succeeds in any
protection state, including NoAccess, and yields the byte contents, while a
byte read through Deref in state NoAccess panics. -/
theorem claim_c10_debug_bypass (sb : SecBuf) (_h : sb.secure = false) :
    debugFmt sb = some sb.b ∧ (sb.p = ProtectState.NoAccess → deref sb = none) := by
  refine ⟨rfl, fun hp => ?_⟩
  simp [deref, hp]

/-- Witness for C10 at a concrete insecure NoAccess buffer. -/
theorem claim_c10_debug_bypass_witness :
    debugFmt { secure := false, b := [42, 222], p := ProtectState.NoAccess } = some [42, 222] ∧
    (({ secure := false, b := [42, 222], p := ProtectState.NoAccess } : SecBuf).p =
        ProtectState.NoAccess →
      deref { secure := false, b := [42, 222], p := ProtectState.NoAccess } = none) :=
  claim_c10_debug_bypass { secure := false, b := [42, 222], p := ProtectState.NoAccess } rfl

/-- Claim C1: filling a buffer with bytes `bb`, read-locking it, rendering
it and running the corrected decode on the rendered string yields a buffer
whose bytes equal `bb` — for insecure buffers of any size, and for secure
buffers of the sizes 8, 16, 32, 64.  The error-correction collaborator is
any codec satisfying the interface contract of the spec. -/
theorem claim_c1_roundtrip (rs : RSCodec) (bb : List Nat) (hb : ∀ x ∈ bb, x < 256) :
    (∃ filled locked rendered out,
      with_insecure_filled bb = some filled ∧
      read_lock filled = some locked ∧
      render rs locked = some rendered ∧
      insecurely_corrected rs rendered = some (Except.ok out) ∧
      out.b = bb) ∧
    ((bb.length = 8 ∨ bb.length = 16 ∨ bb.length = 32 ∨ bb.length = 64) →
      ∃ filled locked rendered out,
        with_secure_filled bb = some filled ∧
        read_lock filled = some locked ∧
        render rs locked = some rendered ∧
        securely_corrected rs rendered = some (Except.ok out) ∧
        out.b = bb) := by
  constructor
  · have hfill : with_insecure_filled bb =
        some { secure := false, b := bb, p := ProtectState.NoAccess } := by
      unfold with_insecure_filled
      have hc := convert_full bb (with_insecure bb.length) rfl
        (by simp [with_insecure, RustBuf.new])
      simpa [with_insecure] using hc
    refine ⟨{ secure := false, b := bb, p := ProtectState.NoAccess },
            { secure := false, b := bb, p := ProtectState.ReadOnly },
            urlSafe (b64Encode (rsEncode rs bb PARITY_LEN)),
            { secure := false, b := bb, p := ProtectState.NoAccess },
            hfill, ?_, ?_, corrected_render_insecure rs bb hb, rfl⟩
    · simp [read_lock, Locker.new, readable]
    · simp [render, deref, rsEncode]
  · intro hs
    have hfill : with_secure_filled bb =
        some { secure := true, b := bb, p := ProtectState.NoAccess } := by
      unfold with_secure_filled
      have halloc : with_secure bb.length =
          some { secure := true, b := List.replicate bb.length 0,
                 p := ProtectState.NoAccess } := by
        simp [with_secure, SodiumBuf.new, hs]
      have hc := convert_full bb
        { secure := true, b := List.replicate bb.length 0, p := ProtectState.NoAccess }
        rfl (by simp)
      simp [halloc, hc]
    refine ⟨{ secure := true, b := bb, p := ProtectState.NoAccess },
            { secure := true, b := bb, p := ProtectState.ReadOnly },
            urlSafe (b64Encode (rsEncode rs bb PARITY_LEN)),
            { secure := true, b := bb, p := ProtectState.NoAccess },
            hfill, ?_, ?_, corrected_render_secure rs bb hb hs, rfl⟩
    · simp [read_lock, Locker.new, readable]
    · simp [render, deref, rsEncode]

/-- Witness for C1 at the concrete byte sequence 12,0,0,0,0,0,0,0 with the
concrete collaborator instance rs0. -/
theorem claim_c1_roundtrip_witness :
    (∃ filled locked rendered out,
      with_insecure_filled [12, 0, 0, 0, 0, 0, 0, 0] = some filled ∧
      read_lock filled = some locked ∧
      render rs0 locked = some rendered ∧
      insecurely_corrected rs0 rendered = some (Except.ok out) ∧
      out.b = [12, 0, 0, 0, 0, 0, 0, 0]) ∧
    (∃ filled locked rendered out,
      with_secure_filled [12, 0, 0, 0, 0, 0, 0, 0] = some filled ∧
      read_lock filled = some locked ∧
      render rs0 locked = some rendered ∧
      securely_corrected rs0 rendered = some (Except.ok out) ∧
      out.b = [12, 0, 0, 0, 0, 0, 0, 0]) :=
  ⟨(claim_c1_roundtrip rs0 [12, 0, 0, 0, 0, 0, 0, 0] (by decide)).1,
   (claim_c1_roundtrip rs0 [12, 0, 0, 0, 0, 0, 0, 0] (by decide)).2 (by decide)⟩

/-- Claim C7: on a buffer in a readable state, render produces exactly the
URL-safe substitution of the base64 encoding of the payload followed by its
parity symbols, the parity length is the fixed constant 5, the output
contains no plus and no slash, and render is deterministic in the bytes. -/
theorem claim_c7_render_structure (rs : RSCodec) (sb : SecBuf)
    (h : sb.p ≠ ProtectState.NoAccess) :
    render rs sb = some (urlSafe (b64Encode (sb.b ++ rs.parity sb.b PARITY_LEN))) ∧
    PARITY_LEN = 5 ∧
    (rs.parity sb.b PARITY_LEN).length = 5 ∧
    (∀ r, render rs sb = some r → ∀ c ∈ r, c ≠ '+' ∧ c ≠ '/') ∧
    (∀ sb2 : SecBuf, sb2.b = sb.b → sb2.p ≠ ProtectState.NoAccess →
      render rs sb2 = render rs sb) := by
  have hrender : render rs sb =
      some (urlSafe (b64Encode (sb.b ++ rs.parity sb.b PARITY_LEN))) := by
    simp [render, deref, h, rsEncode]
  refine ⟨hrender, rfl, rs.parity_length sb.b PARITY_LEN, ?_, ?_⟩
  · intro r hr c hc
    rw [hrender, Option.some.injEq] at hr
    subst hr
    exact urlSafe_no_unsafe _ c hc
  · intro sb2 hb2 hp2
    simp [render, deref, h, hp2, hb2]

/-- Witness for C7 at a concrete read-locked buffer. -/
theorem claim_c7_render_structure_witness :
    render rs0 { secure := false, b := [12, 7], p := ProtectState.ReadOnly } =
      some (urlSafe (b64Encode ([12, 7] ++ rs0.parity [12, 7] PARITY_LEN))) ∧
    PARITY_LEN = 5 ∧
    (rs0.parity [12, 7] PARITY_LEN).length = 5 ∧
    (∀ r, render rs0 { secure := false, b := [12, 7], p := ProtectState.ReadOnly } = some r →
      ∀ c ∈ r, c ≠ '+' ∧ c ≠ '/') ∧
    (∀ sb2 : SecBuf, sb2.b = [12, 7] → sb2.p ≠ ProtectState.NoAccess →
      render rs0 sb2 = render rs0 { secure := false, b := [12, 7], p := ProtectState.ReadOnly }) :=
  claim_c7_render_structure rs0 { secure := false, b := [12, 7], p := ProtectState.ReadOnly }
    (by decide)

/-- Claim C8: for a string produced by render, the corrected decoders give
identical results on it and on its manually substituted variant (minus to
plus, underscore to slash), because both normalize the input first. -/
theorem claim_c8_substitution (rs : RSCodec) (sb : SecBuf) (r : List Char)
    (_h : render rs sb = some r) :
    insecurely_corrected rs (normalize r) = insecurely_corrected rs r ∧
    securely_corrected rs (normalize r) = securely_corrected rs r := by
  constructor <;> simp only [insecurely_corrected, securely_corrected, normalize_idem]

/-- Witness for C8 at a concrete rendered string. -/
theorem claim_c8_substitution_witness :
    insecurely_corrected rs0
        (normalize (urlSafe (b64Encode (rsEncode rs0 [12, 7] PARITY_LEN)))) =
      insecurely_corrected rs0 (urlSafe (b64Encode (rsEncode rs0 [12, 7] PARITY_LEN))) ∧
    securely_corrected rs0
        (normalize (urlSafe (b64Encode (rsEncode rs0 [12, 7] PARITY_LEN)))) =
      securely_corrected rs0 (urlSafe (b64Encode (rsEncode rs0 [12, 7] PARITY_LEN))) :=
  claim_c8_substitution rs0 { secure := false, b := [12, 7], p := ProtectState.ReadOnly }
    (urlSafe (b64Encode (rsEncode rs0 [12, 7] PARITY_LEN))) (by rfl)

/-- Claim C5: both corrected decoders return the DecodeError result when
base64 decoding of the normalized input fails, the CorrectionError result
when the correction step reports the corruption exceeds the repair bound,
and never a buffer in either case; on success the returned buffer holds
exactly the corrected payload, of length the corrected length minus the
parity length. -/
theorem claim_c5_error_results (rs : RSCodec) (s : List Char) :
    (b64Decode (normalize s) = none →
      insecurely_corrected rs s = some (Except.error SodiumError.DecodeError) ∧
      securely_corrected rs s = some (Except.error SodiumError.DecodeError)) ∧
    (∀ w, b64Decode (normalize s) = some w → rs.correct w PARITY_LEN = Except.error () →
      insecurely_corrected rs s = some (Except.error SodiumError.CorrectionError) ∧
      securely_corrected rs s = some (Except.error SodiumError.CorrectionError)) ∧
    (∀ out, insecurely_corrected rs s = some (Except.ok out) →
      ∃ w dec, b64Decode (normalize s) = some w ∧ rs.correct w PARITY_LEN = Except.ok dec ∧
        out.b = dec.take (dec.length - 5) ∧ out.b.length = dec.length - 5) ∧
    (∀ out, securely_corrected rs s = some (Except.ok out) →
      ∃ w dec, b64Decode (normalize s) = some w ∧ rs.correct w PARITY_LEN = Except.ok dec ∧
        out.b = dec.take (dec.length - 5) ∧ out.b.length = dec.length - 5) := by
  refine ⟨?_, ?_, ?_, ?_⟩
  · intro h
    constructor <;> simp [insecurely_corrected, securely_corrected, h]
  · intro w hw hc
    constructor <;> simp [insecurely_corrected, securely_corrected, hw, hc]
  · intro out hout
    cases hdec : b64Decode (normalize s) with
    | none => simp [insecurely_corrected, hdec] at hout
    | some w =>
      cases hcor : rs.correct w PARITY_LEN with
      | error e =>
        cases e
        simp [insecurely_corrected, hdec, hcor] at hout
      | ok dec =>
        have hfull := convert_full (dec.take (dec.length - 5))
          (with_insecure (dec.length - 5)) rfl
          (by
            simp only [with_insecure, RustBuf.new, List.length_replicate, List.length_take]
            omega)
        simp only [insecurely_corrected, hdec, hcor, hfull, Option.some.injEq,
          Except.ok.injEq] at hout
        refine ⟨w, dec, rfl, hcor, ?_, ?_⟩
        · rw [← hout]
        · rw [← hout]
          simp [List.length_take]
  · intro out hout
    cases hdec : b64Decode (normalize s) with
    | none => simp [securely_corrected, hdec] at hout
    | some w =>
      cases hcor : rs.correct w PARITY_LEN with
      | error e =>
        cases e
        simp [securely_corrected, hdec, hcor] at hout
      | ok dec =>
        by_cases hsz : dec.length - 5 = 8 ∨ dec.length - 5 = 16 ∨ dec.length - 5 = 32 ∨
            dec.length - 5 = 64
        · have halloc : with_secure (dec.length - 5) =
              some { secure := true, b := List.replicate (dec.length - 5) 0,
                     p := ProtectState.NoAccess } := by
            simp [with_secure, SodiumBuf.new, hsz]
          have hfull := convert_full (dec.take (dec.length - 5))
            { secure := true, b := List.replicate (dec.length - 5) 0,
              p := ProtectState.NoAccess } rfl
            (by
              simp only [List.length_replicate, List.length_take]
              omega)
          simp only [securely_corrected, hdec, hcor, halloc, hfull, Option.some.injEq,
            Except.ok.injEq] at hout
          refine ⟨w, dec, rfl, hcor, ?_, ?_⟩
          · rw [← hout]
          · rw [← hout]
            simp [List.length_take]
        · have halloc : with_secure (dec.length - 5) = none := by
            unfold with_secure SodiumBuf.new
            rw [if_neg hsz]
            rfl
          simp [securely_corrected, hdec, hcor, halloc] at hout

/-- Witness for C5: a malformed string, a short but well-formed string
rejected by the correction step of the collaborator instance rs1, and a
successfully decoded string. -/
theorem claim_c5_error_results_witness :
    (insecurely_corrected rs1 ['!'] = some (Except.error SodiumError.DecodeError) ∧
     securely_corrected rs1 ['!'] = some (Except.error SodiumError.DecodeError)) ∧
    (insecurely_corrected rs1 ['A', 'A', 'A', 'A'] =
        some (Except.error SodiumError.CorrectionError) ∧
     securely_corrected rs1 ['A', 'A', 'A', 'A'] =
        some (Except.error SodiumError.CorrectionError)) ∧
    (∃ w dec,
      b64Decode (normalize (urlSafe (b64Encode (rsEncode rs1 [12, 7] PARITY_LEN)))) = some w ∧
      rs1.correct w PARITY_LEN = Except.ok dec ∧
      ({ secure := false, b := [12, 7], p := ProtectState.NoAccess } : SecBuf).b =
        dec.take (dec.length - 5) ∧
      ({ secure := false, b := [12, 7], p := ProtectState.NoAccess } : SecBuf).b.length =
        dec.length - 5) :=
  ⟨(claim_c5_error_results rs1 ['!']).1 (by decide),
   (claim_c5_error_results rs1 ['A', 'A', 'A', 'A']).2.1 [0, 0, 0] (by decide) (by rfl),
   (claim_c5_error_results rs1
      (urlSafe (b64Encode (rsEncode rs1 [12, 7] PARITY_LEN)))).2.2.1
      { secure := false, b := [12, 7], p := ProtectState.NoAccess }
      (corrected_render_insecure rs1 [12, 7] (by decide))⟩

/-- Claim C9: when the input decodes and corrects successfully to a word of
total length L, the secure corrected decoder returns a buffer exactly when
L minus 5 is one of 8, 16, 32, 64, and otherwise panics in the secure
allocation path rather than returning a recoverable error. -/
theorem claim_c9_secure_alloc_abort (rs : RSCodec) (s : List Char) (w dec : List Nat)
    (hw : b64Decode (normalize s) = some w)
    (hc : rs.correct w PARITY_LEN = Except.ok dec) :
    ((dec.length - 5 = 8 ∨ dec.length - 5 = 16 ∨ dec.length - 5 = 32 ∨
        dec.length - 5 = 64) →
      ∃ out, securely_corrected rs s = some (Except.ok out)) ∧
    (¬(dec.length - 5 = 8 ∨ dec.length - 5 = 16 ∨ dec.length - 5 = 32 ∨
        dec.length - 5 = 64) →
      securely_corrected rs s = none) := by
  constructor
  · intro hsz
    have halloc : with_secure (dec.length - 5) =
        some { secure := true, b := List.replicate (dec.length - 5) 0,
               p := ProtectState.NoAccess } := by
      simp [with_secure, SodiumBuf.new, hsz]
    have hfull := convert_full (dec.take (dec.length - 5))
      { secure := true, b := List.replicate (dec.length - 5) 0,
        p := ProtectState.NoAccess } rfl
      (by
        simp only [List.length_replicate, List.length_take]
        omega)
    simp only [SecBuf.mk.injEq] at hfull
    refine ⟨{ secure := true, b := dec.take (dec.length - 5), p := ProtectState.NoAccess }, ?_⟩
    simp only [securely_corrected, hw, hc, halloc]
    simp [hfull]
  · intro hsz
    have halloc : with_secure (dec.length - 5) = none := by
      unfold with_secure SodiumBuf.new
      rw [if_neg hsz]
      rfl
    simp only [securely_corrected, hw, hc, halloc]

/-- Witness for C9: a 13-byte corrected word gives a secure buffer of size
8; a 3-byte corrected word would need a secure buffer of a disallowed size,
which is the panic. -/
theorem claim_c9_secure_alloc_abort_witness :
    (∃ out,
      securely_corrected rs0 (String.toList "DAAAAAAAAAAAAAAAAA==") =
        some (Except.ok out)) ∧
    securely_corrected rs0 ['A', 'A', 'A', 'A'] = none :=
  ⟨(claim_c9_secure_alloc_abort rs0 (String.toList "DAAAAAAAAAAAAAAAAA==")
      [12, 0, 0, 0, 0, 0, 0, 0, 0, 0, 0, 0, 0] [12, 0, 0, 0, 0, 0, 0, 0, 0, 0, 0, 0, 0]
      (by decide) (by rfl)).1 (by decide),
   (claim_c9_secure_alloc_abort rs0 ['A', 'A', 'A', 'A'] [0, 0, 0] [0, 0, 0]
      (by decide) (by rfl)).2 (by decide)⟩

end Sodium
